import Mathlib

/-
Shallow embedding of the 10ff typing game (src/tenff/util.py and
src/tenff/game.py), restricted to the pure state machine the specification
talks about.  Python strings are modelled as lists of Unicode code points;
Python `time.time()` timestamps are modelled as abstract integer clock
values passed to each operation; the asyncio timer task is modelled by the
two booleans `timer_launched` / `timer_cancelled`.  Rendering-only fields of
the Python `GameState` (`line_boundaries`, `first_render`) are omitted: no
modelled operation reads them (`line_boundaries` is the separately modelled
`divide_lines`).
-/

namespace TenFF

/-- A Python `str` as a list of code points. -/
abbrev PyStr := List Char

/-- The whitespace test `re.match(r"\s", ...)` / `str.strip()` use on ASCII
input: space, tab, newline, carriage return, vertical tab, form feed.
(The additional Unicode whitespace code points accepted by Python are not
modelled; no claim depends on them.) -/
def isPySpace (c : Char) : Bool :=
  c = ' ' || c = '\t' || c = '\n' || c = '\x0d' || c = '\x0b' || c = '\x0c'

/-- `word` contains no whitespace at all (true of every corpus word, which
is produced by splitting a file on `\s+`). -/
def wsFree (l : PyStr) : Bool := l.all fun c => !(isPySpace c)

/-- Python `str.strip()`: drop whitespace from both ends. -/
def pyStrip (l : PyStr) : PyStr :=
  ((l.dropWhile isPySpace).reverse.dropWhile isPySpace).reverse

/-- Python `" ".join(list_of_words)`. -/
def pyJoinSpace : List PyStr → PyStr
  | [] => []
  | [w] => w
  | w :: v :: rest => w ++ ' ' :: pyJoinSpace (v :: rest)

/-- One step of `divide_lines`'s inner accumulation:
`" ".join((current_line, word)).strip()`. -/
def joinWord (cur w : PyStr) : PyStr := pyStrip (cur ++ ' ' :: w)

/-- The inner `while` loop of `divide_lines` (src/tenff/util.py lines
45-51): consume words while the joined line stays strictly below
`max_columns`; return the accumulated line text and the remaining words. -/
def lineInner (maxColumns : Nat) : PyStr → List PyStr → PyStr × List PyStr
  | cur, [] => (cur, [])
  | cur, w :: ws =>
    if maxColumns ≤ (joinWord cur w).length then (cur, w :: ws)
    else lineInner maxColumns (joinWord cur w) ws

/-- The outer `while` loop of `divide_lines` (src/tenff/util.py lines
42-53), fuel-indexed because the Python loop does not always terminate:
`none` means the Python program runs forever (no fuel bound suffices). -/
def divide_lines_aux (n maxColumns : Nat) :
    Nat → List PyStr → List (Nat × Nat) → Option (List (Nat × Nat))
  | _, [], acc => some acc.reverse
  | 0, _ :: _, _ => none
  | fuel + 1, w :: ws, acc =>
    let p := lineInner maxColumns [] (w :: ws)
    divide_lines_aux n maxColumns fuel p.2
      ((n - (w :: ws).length, n - p.2.length) :: acc)

/-- `divide_lines(words, max_columns)` from src/tenff/util.py. -/
def divide_lines (words : List PyStr) (max_columns : Nat) (fuel : Nat) :
    Option (List (Nat × Nat)) :=
  divide_lines_aux words.length max_columns fuel words []

/-- The target shape of a `divide_lines` result: starting at word index
`k`, the ranges are contiguous (`lo = k`, next block starts at `hi`),
non-empty, end exactly at `words.length`, and each range's space-joined
text is strictly shorter than `maxColumns`. -/
def RangesOK (words : List PyStr) (maxColumns : Nat) :
    Nat → List (Nat × Nat) → Prop
  | k, [] => k = words.length
  | k, r :: rest =>
    r.1 = k ∧ k < r.2 ∧ r.2 ≤ words.length ∧
    (pyJoinSpace ((words.drop r.1).take (r.2 - r.1))).length < maxColumns ∧
    RangesOK words maxColumns r.2 rest

/-- `WordStatus` from src/tenff/game.py. -/
inductive WordStatus
  | untyped
  | typing_well
  | typing_wrong
  | typed_well
  | typed_wrong
deriving DecidableEq, Repr

/-- `Word` from src/tenff/game.py. -/
structure Word where
  text : PyStr
  status : WordStatus
deriving DecidableEq, Repr

/-- The fields of `GameState` (src/tenff/game.py lines 53-80) that the
claims are about.  `timer_launched` models `timer_future is not None`,
`timer_cancelled` models `timer_future.cancel()` having been called. -/
structure GameState where
  words : List Word
  current_word_index : Nat
  word_input : PyStr
  time_left : Int
  start_time : Option Int
  end_time : Option Int
  keys_pressed : Nat
  current_word_keys_pressed : Nat
  timer_launched : Bool
  timer_cancelled : Bool
deriving DecidableEq, Repr

/-- `GameState.__init__`: first word marked TYPING_WELL, the rest UNTYPED. -/
def initState (words : List PyStr) (max_time : Int) : GameState where
  words := words.enum.map fun p =>
    ⟨p.2, if p.1 = 0 then WordStatus.typing_well else WordStatus.untyped⟩
  current_word_index := 0
  word_input := []
  time_left := max_time
  start_time := none
  end_time := none
  keys_pressed := 0
  current_word_keys_pressed := 0
  timer_launched := false
  timer_cancelled := false

/-- `GameState.is_started`. -/
def is_started (s : GameState) : Bool := s.start_time.isSome

/-- `GameState.is_finished`. -/
def is_finished (s : GameState) : Bool := s.end_time.isSome

/-- Status of `words[i]` (UNTYPED out of range; all uses are in range). -/
def statusAt (s : GameState) (i : Nat) : WordStatus :=
  match s.words[i]? with
  | some wd => wd.status
  | none => WordStatus.untyped

/-- Text of `words[i]` (empty out of range; all uses are in range). -/
def textAt (s : GameState) (i : Nat) : PyStr :=
  match s.words[i]? with
  | some wd => wd.text
  | none => []

/-- `self.state.words[i].status = st` (a no-op out of range; the Python
code only executes it in range). -/
def set_status (s : GameState) (i : Nat) (st : WordStatus) : GameState :=
  { s with words := s.words.set i ⟨textAt s i, st⟩ }

/-- `GameExecutor.start` (line 143): record the start timestamp. -/
def start (now : Int) (s : GameState) : GameState :=
  { s with start_time := some now }

/-- `GameExecutor.finish` (lines 147-151): set the end timestamp
unconditionally and cancel the timer task if one was launched. -/
def finish (now : Int) (s : GameState) : GameState :=
  { s with
    end_time := some now
    timer_cancelled := s.timer_cancelled || s.timer_launched }

/-- `GameExecutor.tick` (lines 153-157). -/
def tick (now : Int) (s : GameState) : GameState :=
  let s' := { s with time_left := s.time_left - 1 }
  if s'.time_left = 0 then finish now s' else s'

/-- `GameExecutor.update_typing_status` (lines 194-200):
the current word is TYPING_WELL iff its text starts with the buffer. -/
def update_typing_status (s : GameState) : GameState :=
  set_status s s.current_word_index
    (if List.isPrefixOf s.word_input (textAt s s.current_word_index)
     then WordStatus.typing_well else WordStatus.typing_wrong)

/-- `GameExecutor.backspace_pressed` (lines 202-206). -/
def backspace_pressed (s : GameState) : GameState :=
  update_typing_status
    { s with
      word_input := s.word_input.dropLast
      current_word_keys_pressed := s.current_word_keys_pressed + 1 }

/-- `GameExecutor.word_backspace_pressed` (lines 208-212). -/
def word_backspace_pressed (s : GameState) : GameState :=
  update_typing_status
    { s with
      word_input := []
      current_word_keys_pressed := s.current_word_keys_pressed + 1 }

/-- `GameExecutor.key_pressed` (lines 214-221). -/
def key_pressed (key : PyStr) (s : GameState) : GameState :=
  update_typing_status
    { s with
      word_input := s.word_input ++ key
      current_word_keys_pressed := s.current_word_keys_pressed + 1 }

/-- `GameExecutor.word_finished` (lines 223-240). -/
def word_finished (now : Int) (s : GameState) : GameState :=
  let committed : WordStatus :=
    if textAt s s.current_word_index = s.word_input
    then WordStatus.typed_well else WordStatus.typed_wrong
  let s1 :=
    set_status
      { s with
        keys_pressed := s.keys_pressed + s.current_word_keys_pressed + 1
        current_word_keys_pressed := 0 }
      s.current_word_index committed
  let s2 :=
    { s1 with
      word_input := []
      current_word_index := s.current_word_index + 1 }
  if s.current_word_index + 1 = s.words.length then finish now s2
  else set_status s2 (s.current_word_index + 1) WordStatus.typing_well

/-- First character of the key is whitespace: `re.match(r"\s", key)`. -/
def match_space : PyStr → Bool
  | [] => false
  | c :: _ => isPySpace c

/-- `ord(key)` for a one-character key; 0 for the empty key (on which the
Python code would raise, a path the program never takes). -/
def head_ord : PyStr → Nat
  | [] => 0
  | c :: _ => c.toNat

/-- The key-routing `if`/`elif` chain of `GameExecutor.consume_key`
(lines 164-174). -/
def route_key (rigorous_spaces : Bool) (now : Int) (key : PyStr)
    (s : GameState) : GameState :=
  if key = ['\x03'] then finish now s
  else if key = ['\x7F'] then backspace_pressed s
  else if key = ['\x17'] then word_backspace_pressed s
  else if match_space key then
    if s.word_input ≠ [] ∨ rigorous_spaces = true then word_finished now s
    else s
  else if 1 < key.length ∨ 32 ≤ head_ord key then key_pressed key s
  else s

/-- `GameExecutor.consume_key` (lines 159-182): route the key, then — for
every key, ignored or not — start the game and launch the timer task if
the timer has not been started yet. -/
def consume_key (rigorous_spaces : Bool) (now : Int) (key : PyStr)
    (s : GameState) : GameState :=
  let s1 := route_key rigorous_spaces now key s
  if is_started s1 = false then { start now s1 with timer_launched := true }
  else s1

/-- The correct-word list of `GameExecutor.render_stats` (lines 272-276). -/
def correct_words (s : GameState) : List PyStr :=
  (s.words.filter fun wd => wd.status == WordStatus.typed_well).map
    fun wd => wd.text

/-- The wrong-word list of `GameExecutor.render_stats` (lines 277-281). -/
def wrong_words (s : GameState) : List PyStr :=
  (s.words.filter fun wd => wd.status == WordStatus.typed_wrong).map
    fun wd => wd.text

/-- `sum(len(word) + 1 for word in correct_words)`. -/
def correct_characters (s : GameState) : Nat :=
  ((correct_words s).map fun w => w.length + 1).sum

/-- `sum(len(word) + 1 for word in wrong_words)`. -/
def wrong_characters (s : GameState) : Nat :=
  ((wrong_words s).map fun w => w.length + 1).sum

/-- The `cps` computation of `render_stats` (lines 286-291): 0 when either
timestamp is unset, otherwise `correct / (end - start)`; `none` models the
`ZeroDivisionError` Python raises when the divisor is exactly zero. -/
def cps (s : GameState) : Option ℚ :=
  match s.end_time, s.start_time with
  | some e, some st =>
    if e - st = 0 then none
    else some ((correct_characters s : ℚ) / ((e - st : Int) : ℚ))
  | _, _ => some 0

/-- The `accuracy` computation of `render_stats` (lines 293-297). -/
def accuracy (s : GameState) : ℚ :=
  if s.keys_pressed ≠ 0
  then (correct_characters s : ℚ) / (s.keys_pressed : ℚ)
  else 1

/-- A word status is a "typing" variant. -/
def is_typing (st : WordStatus) : Bool :=
  st == WordStatus.typing_well || st == WordStatus.typing_wrong

/-- Number of words currently in a "typing" status. -/
def typing_count (s : GameState) : Nat :=
  s.words.countP fun wd => is_typing wd.status

/-- The status-array shape maintained by the controller: all words before
the current index are committed (TYPED_WELL or TYPED_WRONG), the current
word (when in range) is being typed (TYPING_WELL or TYPING_WRONG), all
later words are UNTYPED, the index never exceeds the word count, and an
index equal to the word count implies the game is finished. -/
def StatusSpec (s : GameState) : Prop :=
  s.current_word_index ≤ s.words.length ∧
  (s.current_word_index = s.words.length → is_finished s = true) ∧
  ∀ i, i < s.words.length →
    (i < s.current_word_index →
      statusAt s i = WordStatus.typed_well ∨
      statusAt s i = WordStatus.typed_wrong) ∧
    (i = s.current_word_index →
      statusAt s i = WordStatus.typing_well ∨
      statusAt s i = WordStatus.typing_wrong) ∧
    (s.current_word_index < i → statusAt s i = WordStatus.untyped)

/-- One controller event, as the running program can deliver it: the main
loop consumes a key only while the game is not finished (src/tenff/game.py
line 351) and delivers only non-empty decoded key strings; the timer task
ticks only while the game is not finished and only after it was launched by
the first consumed key (lines 176-191). -/
inductive Step (rig : Bool) : GameState → GameState → Prop
  | consume (now : Int) (key : PyStr) (s : GameState) :
      is_finished s = false → key ≠ [] →
      Step rig s (consume_key rig now key s)
  | tick_step (now : Int) (s : GameState) :
      is_finished s = false → is_started s = true →
      Step rig s (tick now s)

/-- States reachable from a freshly constructed game by controller events. -/
inductive Reachable (rig : Bool) (words : List PyStr) (max_time : Int) :
    GameState → Prop
  | init : Reachable rig words max_time (initState words max_time)
  | step {s s' : GameState} :
      Reachable rig words max_time s → Step rig s s' →
      Reachable rig words max_time s'

/-! Helper lemmas about the state operations. -/

theorem set_status_words_length (s : GameState) (j : Nat) (st : WordStatus) :
    (set_status s j st).words.length = s.words.length := by
  simp [set_status]

theorem statusAt_eq (s : GameState) (i : Nat) :
    statusAt s i =
      (match s.words[i]? with
       | some wd => wd.status
       | none => WordStatus.untyped) := rfl

theorem textAt_eq (s : GameState) (i : Nat) :
    textAt s i =
      (match s.words[i]? with
       | some wd => wd.text
       | none => []) := rfl

theorem statusAt_set_status (s : GameState) (j : Nat) (st : WordStatus)
    (i : Nat) :
    statusAt (set_status s j st) i =
      if j = i ∧ j < s.words.length then st else statusAt s i := by
  by_cases hji : j = i
  · subst hji
    by_cases hl : j < s.words.length
    · rw [if_pos ⟨rfl, hl⟩]
      unfold statusAt set_status
      dsimp only
      rw [List.getElem?_set, if_pos rfl, if_pos hl]
    · rw [if_neg (fun hc => hl hc.2)]
      unfold statusAt set_status
      dsimp only
      rw [List.getElem?_set, if_pos rfl, if_neg hl]
      rw [List.getElem?_eq_none (by omega)]
  · rw [if_neg (fun hc => hji hc.1)]
    unfold statusAt set_status
    dsimp only
    rw [List.getElem?_set, if_neg hji]

theorem textAt_set_status (s : GameState) (j : Nat) (st : WordStatus)
    (i : Nat) :
    textAt (set_status s j st) i = textAt s i := by
  by_cases hji : j = i
  · subst hji
    by_cases hl : j < s.words.length
    · unfold textAt set_status
      dsimp only
      rw [List.getElem?_set, if_pos rfl, if_pos hl]
      rw [← textAt_eq s j]
    · unfold textAt set_status
      dsimp only
      rw [List.getElem?_set, if_pos rfl, if_neg hl]
      rw [List.getElem?_eq_none (by omega)]
  · unfold textAt set_status
    dsimp only
    rw [List.getElem?_set, if_neg hji]

theorem statusAt_congr {s t : GameState} (h : s.words = t.words) (i : Nat) :
    statusAt s i = statusAt t i := by
  unfold statusAt
  rw [h]

theorem word_finished_proj (now : Int) (s : GameState) :
    (word_finished now s).current_word_index = s.current_word_index + 1 ∧
    (word_finished now s).word_input = [] ∧
    (word_finished now s).keys_pressed
      = s.keys_pressed + s.current_word_keys_pressed + 1 ∧
    (word_finished now s).current_word_keys_pressed = 0 ∧
    (word_finished now s).time_left = s.time_left ∧
    (word_finished now s).start_time = s.start_time ∧
    (word_finished now s).words.length = s.words.length := by
  unfold word_finished
  dsimp only
  split
  · exact ⟨rfl, rfl, rfl, rfl, rfl, rfl, by simp [finish, set_status]⟩
  · exact ⟨rfl, rfl, rfl, rfl, rfl, rfl, by simp [set_status]⟩

theorem word_finished_end_time (now : Int) (s : GameState) :
    (word_finished now s).end_time =
      if s.current_word_index + 1 = s.words.length then some now
      else s.end_time := by
  unfold word_finished
  dsimp only
  split
  · simp_all [finish, set_status]
  · simp_all [set_status]

theorem word_finished_statusAt_cur (now : Int) (s : GameState)
    (h : s.current_word_index < s.words.length) :
    statusAt (word_finished now s) s.current_word_index =
      (if textAt s s.current_word_index = s.word_input
       then WordStatus.typed_well else WordStatus.typed_wrong) := by
  unfold word_finished
  dsimp only
  split
  · simp only [statusAt_eq, finish, set_status]
    rw [List.getElem?_set_self (by simpa using h)]
  · simp only [statusAt_eq, set_status]
    rw [List.getElem?_set_ne (by omega),
      List.getElem?_set_self (by simpa using h)]

theorem word_finished_statusAt_next (now : Int) (s : GameState)
    (h : s.current_word_index + 1 < s.words.length) :
    statusAt (word_finished now s) (s.current_word_index + 1)
      = WordStatus.typing_well := by
  unfold word_finished
  dsimp only
  split
  · omega
  · simp only [statusAt_eq, set_status]
    rw [List.getElem?_set_self (by simpa using h)]

/-- C1: `word_finished()` commits the current word: it adds the per-word
edit counter plus one to `keys_pressed`, sets the current word's status to
TYPED_WELL iff the buffer equals the word's text (else TYPED_WRONG),
clears the buffer and the per-word counter, advances the index by one, and
either finishes the game (when the new index equals the word count) or
marks the new current word TYPING_WELL. -/
theorem c1_word_finished_commit (now : Int) (s : GameState)
    (h : s.current_word_index < s.words.length) :
    (word_finished now s).keys_pressed
      = s.keys_pressed + s.current_word_keys_pressed + 1 ∧
    (word_finished now s).current_word_keys_pressed = 0 ∧
    (word_finished now s).word_input = [] ∧
    (word_finished now s).current_word_index = s.current_word_index + 1 ∧
    statusAt (word_finished now s) s.current_word_index =
      (if textAt s s.current_word_index = s.word_input
       then WordStatus.typed_well else WordStatus.typed_wrong) ∧
    (s.current_word_index + 1 = s.words.length →
      (word_finished now s).end_time = some now) ∧
    (s.current_word_index + 1 ≠ s.words.length →
      (word_finished now s).end_time = s.end_time ∧
      statusAt (word_finished now s) (s.current_word_index + 1)
        = WordStatus.typing_well) := by
  obtain ⟨h1, h2, h3, h4, -, -, h7⟩ := word_finished_proj now s
  refine ⟨h3, h4, h2, h1, word_finished_statusAt_cur now s h, ?_, ?_⟩
  · intro he
    rw [word_finished_end_time, if_pos he]
  · intro hne
    refine ⟨?_, word_finished_statusAt_next now s (by omega)⟩
    rw [word_finished_end_time, if_neg hne]

/-- Witness for C1 at a concrete input: one word `"hi"`, empty buffer. -/
theorem c1_word_finished_commit_witness :
    (word_finished 5 (initState [['h', 'i']] 60)).keys_pressed
      = (initState [['h', 'i']] 60).keys_pressed
        + (initState [['h', 'i']] 60).current_word_keys_pressed + 1 ∧
    (word_finished 5 (initState [['h', 'i']] 60)).current_word_keys_pressed
      = 0 ∧
    (word_finished 5 (initState [['h', 'i']] 60)).word_input = [] ∧
    (word_finished 5 (initState [['h', 'i']] 60)).current_word_index
      = (initState [['h', 'i']] 60).current_word_index + 1 ∧
    statusAt (word_finished 5 (initState [['h', 'i']] 60))
        (initState [['h', 'i']] 60).current_word_index =
      (if textAt (initState [['h', 'i']] 60)
            (initState [['h', 'i']] 60).current_word_index
          = (initState [['h', 'i']] 60).word_input
       then WordStatus.typed_well else WordStatus.typed_wrong) ∧
    ((initState [['h', 'i']] 60).current_word_index + 1
        = (initState [['h', 'i']] 60).words.length →
      (word_finished 5 (initState [['h', 'i']] 60)).end_time = some 5) ∧
    ((initState [['h', 'i']] 60).current_word_index + 1
        ≠ (initState [['h', 'i']] 60).words.length →
      (word_finished 5 (initState [['h', 'i']] 60)).end_time
        = (initState [['h', 'i']] 60).end_time ∧
      statusAt (word_finished 5 (initState [['h', 'i']] 60))
          ((initState [['h', 'i']] 60).current_word_index + 1)
        = WordStatus.typing_well) :=
  c1_word_finished_commit 5 (initState [['h', 'i']] 60) (by decide)

/-- C4 counterexample: `finish()` is not idempotent — a second call on an
already-finished state overwrites the end timestamp with the new time. -/
theorem c4_counterexample_finish_overwrites :
    (finish 5 (initState [['a']] 60)).end_time = some 5 ∧
    (finish 9 (finish 5 (initState [['a']] 60))).end_time = some 9 ∧
    (finish 9 (finish 5 (initState [['a']] 60))).end_time
      ≠ (finish 5 (initState [['a']] 60)).end_time := by
  refine ⟨rfl, rfl, ?_⟩
  decide

/-- C4 amended: a second `finish()` call sets the end timestamp to the
time of the second call (it overwrites the first); the state does remain
finished after any `finish()` call. -/
theorem c4_finish_second_call_sets_new_time (s : GameState) (t1 t2 : Int) :
    (finish t1 s).end_time = some t1 ∧
    (finish t2 (finish t1 s)).end_time = some t2 ∧
    is_finished (finish t1 s) = true ∧
    is_finished (finish t2 (finish t1 s)) = true :=
  ⟨rfl, rfl, rfl, rfl⟩

theorem route_key_start_fields (rig : Bool) (now : Int) (key : PyStr)
    (s : GameState) :
    (route_key rig now key s).start_time = s.start_time ∧
    (route_key rig now key s).timer_launched = s.timer_launched := by
  unfold route_key
  split
  · exact ⟨rfl, rfl⟩
  · split
    · exact ⟨rfl, rfl⟩
    · split
      · exact ⟨rfl, rfl⟩
      · split
        · split
          · exact ⟨(word_finished_proj now s).2.2.2.2.2.1, by
              unfold word_finished
              dsimp only
              split <;> rfl⟩
          · exact ⟨rfl, rfl⟩
        · split
          · exact ⟨rfl, rfl⟩
          · exact ⟨rfl, rfl⟩

/-- C8 counterexample: the ignored control character `"\x01"` (below 32,
not in the routing table) still triggers `start()` and launches the timer
on a fresh state, while leaving the word state untouched. -/
theorem c8_counterexample_ignored_key_starts_timer :
    (consume_key false 7 ['\x01'] (initState [['a', 'b']] 60)).start_time
      = some 7 ∧
    (consume_key false 7 ['\x01'] (initState [['a', 'b']] 60)).timer_launched
      = true ∧
    (consume_key false 7 ['\x01'] (initState [['a', 'b']] 60)).words
      = (initState [['a', 'b']] 60).words ∧
    (consume_key false 7 ['\x01'] (initState [['a', 'b']] 60)).word_input
      = [] ∧
    (consume_key false 7 ['\x01'] (initState [['a', 'b']] 60)).keys_pressed
      = 0 := by
  decide

/-- C8 amended: `consume_key` runs the start logic after the routed
action, for every key event (ignored ones included): if the timer has not
been started it records the start timestamp and launches the timer task;
once started, no later key event changes the start timestamp or relaunches
the timer. -/
theorem c8_start_on_first_key (rig : Bool) (now : Int) (key : PyStr)
    (s : GameState) :
    (is_started s = false →
      (consume_key rig now key s).start_time = some now ∧
      (consume_key rig now key s).timer_launched = true) ∧
    (is_started s = true →
      (consume_key rig now key s).start_time = s.start_time ∧
      (consume_key rig now key s).timer_launched = s.timer_launched) := by
  obtain ⟨hst, htl⟩ := route_key_start_fields rig now key s
  have hiss : is_started (route_key rig now key s) = is_started s := by
    unfold is_started
    rw [hst]
  constructor
  · intro h
    unfold consume_key
    dsimp only
    rw [hiss, h]
    exact ⟨rfl, rfl⟩
  · intro h
    unfold consume_key
    dsimp only
    rw [hiss, h]
    simp only [Bool.true_eq_false, if_false]
    exact ⟨hst, htl⟩

/-- Witness for the amended C8 at a concrete input: the first key event on
a fresh game sets the start timestamp and launches the timer. -/
theorem c8_start_on_first_key_witness :
    (consume_key false 7 ['a'] (initState [['a', 'b']] 60)).start_time
      = some 7 ∧
    (consume_key false 7 ['a'] (initState [['a', 'b']] 60)).timer_launched
      = true :=
  (c8_start_on_first_key false 7 ['a'] (initState [['a', 'b']] 60)).1 rfl

theorem consume_key_core (rig : Bool) (now : Int) (key : PyStr)
    (s : GameState) :
    (consume_key rig now key s).words = (route_key rig now key s).words ∧
    (consume_key rig now key s).current_word_index
      = (route_key rig now key s).current_word_index ∧
    (consume_key rig now key s).word_input
      = (route_key rig now key s).word_input ∧
    (consume_key rig now key s).keys_pressed
      = (route_key rig now key s).keys_pressed ∧
    (consume_key rig now key s).current_word_keys_pressed
      = (route_key rig now key s).current_word_keys_pressed ∧
    (consume_key rig now key s).time_left
      = (route_key rig now key s).time_left ∧
    (consume_key rig now key s).end_time
      = (route_key rig now key s).end_time := by
  unfold consume_key
  dsimp only
  split
  · exact ⟨rfl, rfl, rfl, rfl, rfl, rfl, rfl⟩
  · exact ⟨rfl, rfl, rfl, rfl, rfl, rfl, rfl⟩

theorem route_key_whitespace (rig : Bool) (now : Int) (key : PyStr)
    (s : GameState) (hws : match_space key = true) :
    route_key rig now key s =
      if s.word_input ≠ [] ∨ rig = true then word_finished now s else s := by
  have h3 : key ≠ ['\x03'] := by
    rintro rfl
    exact absurd hws (by decide)
  have h7 : key ≠ ['\x7F'] := by
    rintro rfl
    exact absurd hws (by decide)
  have h17 : key ≠ ['\x17'] := by
    rintro rfl
    exact absurd hws (by decide)
  unfold route_key
  rw [if_neg h3, if_neg h7, if_neg h17, if_pos hws]

/-- C9: a whitespace key event calls `word_finished()` exactly when the
input buffer is non-empty or rigorous-spaces mode is on; with rigorous
mode off and an empty buffer it routes no action (only the start logic may
touch the start timestamp and timer fields); in rigorous mode an empty
buffer commits an empty string, TYPED_WRONG against any non-empty target. -/
theorem c9_whitespace_routing (rig : Bool) (now : Int) (key : PyStr)
    (s : GameState) (hws : match_space key = true) :
    (s.word_input = [] → rig = false →
      (consume_key rig now key s).words = s.words ∧
      (consume_key rig now key s).current_word_index
        = s.current_word_index ∧
      (consume_key rig now key s).word_input = s.word_input ∧
      (consume_key rig now key s).keys_pressed = s.keys_pressed ∧
      (consume_key rig now key s).current_word_keys_pressed
        = s.current_word_keys_pressed ∧
      (consume_key rig now key s).time_left = s.time_left ∧
      (consume_key rig now key s).end_time = s.end_time) ∧
    ((s.word_input ≠ [] ∨ rig = true) →
      (consume_key rig now key s).current_word_index
        = s.current_word_index + 1 ∧
      (consume_key rig now key s).word_input = [] ∧
      (consume_key rig now key s).keys_pressed
        = s.keys_pressed + s.current_word_keys_pressed + 1 ∧
      (consume_key rig now key s).current_word_keys_pressed = 0) ∧
    (rig = true → s.word_input = [] →
      s.current_word_index < s.words.length →
      textAt s s.current_word_index ≠ [] →
      statusAt (consume_key rig now key s) s.current_word_index
        = WordStatus.typed_wrong) := by
  obtain ⟨cw, ci, cwi, ck, cck, ct, ce⟩ := consume_key_core rig now key s
  have hroute := route_key_whitespace rig now key s hws
  refine ⟨?_, ?_, ?_⟩
  · intro hbuf hrig
    have hcond : ¬ (s.word_input ≠ [] ∨ rig = true) := by
      rintro (hc | hc)
      · exact hc hbuf
      · rw [hrig] at hc
        cases hc
    rw [hroute, if_neg hcond] at cw ci cwi ck cck ct ce
    exact ⟨cw, ci, cwi, ck, cck, ct, ce⟩
  · intro hcond
    rw [hroute, if_pos hcond] at ci cwi ck cck
    obtain ⟨p1, p2, p3, p4, -⟩ := word_finished_proj now s
    rw [ci, cwi, ck, cck]
    exact ⟨p1, p2, p3, p4⟩
  · intro hrig hbuf hlt htext
    rw [hroute, if_pos (Or.inr hrig)] at cw
    rw [statusAt_congr cw s.current_word_index,
      word_finished_statusAt_cur now s hlt]
    rw [if_neg]
    rw [hbuf]
    exact htext

/-- Witness for C9 at a concrete input: rigorous mode, key `" "`, fresh
game over the single word `"ab"` with empty buffer. -/
theorem c9_whitespace_routing_witness :
    ((initState [['a', 'b']] 60).word_input = [] → true = false →
      (consume_key true 3 [' '] (initState [['a', 'b']] 60)).words
        = (initState [['a', 'b']] 60).words ∧
      (consume_key true 3 [' '] (initState [['a', 'b']] 60)).current_word_index
        = (initState [['a', 'b']] 60).current_word_index ∧
      (consume_key true 3 [' '] (initState [['a', 'b']] 60)).word_input
        = (initState [['a', 'b']] 60).word_input ∧
      (consume_key true 3 [' '] (initState [['a', 'b']] 60)).keys_pressed
        = (initState [['a', 'b']] 60).keys_pressed ∧
      (consume_key true 3 [' ']
          (initState [['a', 'b']] 60)).current_word_keys_pressed
        = (initState [['a', 'b']] 60).current_word_keys_pressed ∧
      (consume_key true 3 [' '] (initState [['a', 'b']] 60)).time_left
        = (initState [['a', 'b']] 60).time_left ∧
      (consume_key true 3 [' '] (initState [['a', 'b']] 60)).end_time
        = (initState [['a', 'b']] 60).end_time) ∧
    (((initState [['a', 'b']] 60).word_input ≠ [] ∨ true = true) →
      (consume_key true 3 [' '] (initState [['a', 'b']] 60)).current_word_index
        = (initState [['a', 'b']] 60).current_word_index + 1 ∧
      (consume_key true 3 [' '] (initState [['a', 'b']] 60)).word_input
        = [] ∧
      (consume_key true 3 [' '] (initState [['a', 'b']] 60)).keys_pressed
        = (initState [['a', 'b']] 60).keys_pressed
          + (initState [['a', 'b']] 60).current_word_keys_pressed + 1 ∧
      (consume_key true 3 [' ']
          (initState [['a', 'b']] 60)).current_word_keys_pressed = 0) ∧
    (true = true → (initState [['a', 'b']] 60).word_input = [] →
      (initState [['a', 'b']] 60).current_word_index
        < (initState [['a', 'b']] 60).words.length →
      textAt (initState [['a', 'b']] 60)
          (initState [['a', 'b']] 60).current_word_index ≠ [] →
      statusAt (consume_key true 3 [' '] (initState [['a', 'b']] 60))
          (initState [['a', 'b']] 60).current_word_index
        = WordStatus.typed_wrong) :=
  c9_whitespace_routing true 3 [' '] (initState [['a', 'b']] 60) (by decide)

/-- C7 counterexample: with both timestamps set and equal — reachable by
aborting with Ctrl-C on the very first key event, since `consume_key` runs
`finish()` before the start logic sets the start timestamp — the `cps`
division has a zero divisor, which raises `ZeroDivisionError` in Python
(modelled as `none`) instead of yielding the claimed 0. -/
theorem c7_counterexample_zero_elapsed_division :
    cps (consume_key false 5 ['\x03'] (initState [['h', 'i']] 60)) = none ∧
    (consume_key false 5 ['\x03'] (initState [['h', 'i']] 60)).start_time
      = some 5 ∧
    (consume_key false 5 ['\x03'] (initState [['h', 'i']] 60)).end_time
      = some 5 := by
  refine ⟨?_, rfl, rfl⟩
  rfl

/-- C7 amended: `accuracy` is guarded (1 when no key was pressed, else
`correct / keys_pressed`) and `cps` is 0 whenever either timestamp is
unset; but when both timestamps are set the code divides by `end - start`
with no guard on its sign or on zero: a zero elapsed time raises
`ZeroDivisionError` (modelled as `none`), and otherwise the quotient
`correct / (end - start)` is returned even when negative. -/
theorem c7_stats_guards (s : GameState) :
    ((s.start_time = none ∨ s.end_time = none) → cps s = some 0) ∧
    (∀ e st : Int, s.end_time = some e → s.start_time = some st →
      ((e - st = 0 → cps s = none) ∧
       (e - st ≠ 0 →
         cps s = some ((correct_characters s : ℚ) / ((e - st : Int) : ℚ))))) ∧
    (s.keys_pressed = 0 → accuracy s = 1) ∧
    (s.keys_pressed ≠ 0 →
      accuracy s = (correct_characters s : ℚ) / (s.keys_pressed : ℚ)) := by
  refine ⟨?_, ?_, ?_, ?_⟩
  · intro h
    unfold cps
    rcases he : s.end_time with _ | e
    · rfl
    · rcases hst : s.start_time with _ | st
      · rfl
      · rcases h with h | h
        · rw [hst] at h
          cases h
        · rw [he] at h
          cases h
  · intro e st he hst
    have hcps : cps s =
        (if e - st = 0 then none
         else some ((correct_characters s : ℚ) / ((e - st : Int) : ℚ))) := by
      unfold cps
      rw [he, hst]
    constructor
    · intro hz
      rw [hcps, if_pos hz]
    · intro hz
      rw [hcps, if_neg hz]
  · intro h
    unfold accuracy
    rw [if_neg (by omega)]
  · intro h
    unfold accuracy
    rw [if_pos h]

/-- Witness for C7 at concrete inputs: a fresh state has no timestamps and
no keys pressed, so `cps` is 0 and `accuracy` is 1. -/
theorem c7_stats_guards_witness :
    cps (initState [['a']] 60) = some 0 ∧
    accuracy (initState [['a']] 60) = 1 :=
  ⟨(c7_stats_guards (initState [['a']] 60)).1 (Or.inl rfl),
   (c7_stats_guards (initState [['a']] 60)).2.2.1 rfl⟩

theorem lineInner_snd_length (maxColumns : Nat) :
    ∀ (wl : List PyStr) (cur : PyStr),
      (lineInner maxColumns cur wl).2.length ≤ wl.length := by
  intro wl
  induction wl with
  | nil => intro cur; simp [lineInner]
  | cons w ws ih =>
    intro cur
    unfold lineInner
    split
    · simp
    · calc (lineInner maxColumns (joinWord cur w) ws).2.length
          ≤ ws.length := ih _
        _ ≤ (w :: ws).length := by simp

/-- If the inner loop makes no progress on a non-empty word list, the
outer loop never terminates: every fuel bound is exhausted. -/
theorem divide_lines_aux_stuck (n maxColumns : Nat) (wl : List PyStr)
    (hne : wl ≠ []) (hstuck : (lineInner maxColumns [] wl).2 = wl) :
    ∀ (fuel : Nat) (acc : List (Nat × Nat)),
      divide_lines_aux n maxColumns fuel wl acc = none := by
  intro fuel
  induction fuel with
  | zero =>
    intro acc
    obtain ⟨w, ws, rfl⟩ := List.exists_cons_of_ne_nil hne
    rfl
  | succ fuel ih =>
    intro acc
    obtain ⟨w, ws, rfl⟩ := List.exists_cons_of_ne_nil hne
    unfold divide_lines_aux
    dsimp only
    rw [hstuck]
    exact ih _

/-- C3 fails on the code: a word at least `max_columns` long is never
consumed by the inner loop (the first-word case is not special-cased), so
`divide_lines` loops forever on it: the word `"aaaa"` with `max_columns =
3` exhausts every fuel bound. -/
theorem c3_divide_lines_oversized_nontermination :
    ∀ fuel : Nat,
      divide_lines [['a', 'a', 'a', 'a']] 3 fuel = none := by
  intro fuel
  unfold divide_lines
  exact divide_lines_aux_stuck 1 3 [['a', 'a', 'a', 'a']]
    (by decide) (by decide) fuel []

@[simp] theorem set_status_cwi (s : GameState) (j : Nat) (st : WordStatus) :
    (set_status s j st).current_word_index = s.current_word_index := rfl

@[simp] theorem set_status_end_time (s : GameState) (j : Nat)
    (st : WordStatus) : (set_status s j st).end_time = s.end_time := rfl

@[simp] theorem set_status_length (s : GameState) (j : Nat)
    (st : WordStatus) :
    (set_status s j st).words.length = s.words.length :=
  set_status_words_length s j st

@[simp] theorem is_finished_set_status (s : GameState) (j : Nat)
    (st : WordStatus) :
    is_finished (set_status s j st) = is_finished s := rfl

theorem statusSpec_congr {s t : GameState} (hw : s.words = t.words)
    (hc : s.current_word_index = t.current_word_index)
    (he : s.end_time = t.end_time) (h : StatusSpec s) : StatusSpec t := by
  obtain ⟨h1, h2, h3⟩ := h
  have hst : ∀ i, statusAt t i = statusAt s i := fun i =>
    statusAt_congr hw.symm i
  have hlen : t.words.length = s.words.length := by rw [hw]
  have hfin : is_finished t = is_finished s := by
    unfold is_finished
    rw [he]
  refine ⟨?_, ?_, ?_⟩
  · rw [← hc, hlen]
    exact h1
  · intro hh
    rw [hfin]
    exact h2 (hc.trans (hh.trans hlen))
  · intro i hi
    rw [hlen] at hi
    refine ⟨?_, ?_, ?_⟩
    · intro hlt
      rw [hst]
      exact (h3 i hi).1 (by rw [hc]; exact hlt)
    · intro heq
      rw [hst]
      exact (h3 i hi).2.1 (by rw [hc]; exact heq)
    · intro hgt
      rw [hst]
      exact (h3 i hi).2.2 (by rw [← hc] at hgt; exact hgt)

theorem statusSpec_set_typing (s : GameState) (h : StatusSpec s)
    (st : WordStatus)
    (hst : st = WordStatus.typing_well ∨ st = WordStatus.typing_wrong) :
    StatusSpec (set_status s s.current_word_index st) := by
  obtain ⟨h1, h2, h3⟩ := h
  refine ⟨?_, ?_, ?_⟩
  · simp only [set_status_cwi, set_status_length]
    exact h1
  · simp only [set_status_cwi, set_status_length, is_finished_set_status]
    exact h2
  · intro i hi
    simp only [set_status_cwi, set_status_length] at hi ⊢
    refine ⟨?_, ?_, ?_⟩
    · intro hlt
      rw [statusAt_set_status, if_neg (fun hc => by omega)]
      exact (h3 i hi).1 hlt
    · intro heq
      subst heq
      rw [statusAt_set_status, if_pos ⟨rfl, hi⟩]
      exact hst
    · intro hgt
      rw [statusAt_set_status, if_neg (fun hc => by omega)]
      exact (h3 i hi).2.2 hgt

theorem statusSpec_update_typing (s : GameState) (h : StatusSpec s) :
    StatusSpec (update_typing_status s) := by
  unfold update_typing_status
  refine statusSpec_set_typing s h _ ?_
  split
  · exact Or.inl rfl
  · exact Or.inr rfl

theorem statusSpec_finish (now : Int) (s : GameState) (h : StatusSpec s) :
    StatusSpec (finish now s) := by
  obtain ⟨h1, h2, h3⟩ := h
  exact ⟨h1, fun _ => rfl, h3⟩

theorem statusSpec_start (now : Int) (s : GameState) (h : StatusSpec s) :
    StatusSpec (start now s) := by
  obtain ⟨h1, h2, h3⟩ := h
  exact ⟨h1, h2, h3⟩

theorem statusSpec_tick (now : Int) (s : GameState) (h : StatusSpec s) :
    StatusSpec (tick now s) := by
  obtain ⟨h1, h2, h3⟩ := h
  unfold tick
  dsimp only
  split
  · exact ⟨h1, fun _ => rfl, h3⟩
  · exact ⟨h1, h2, h3⟩

theorem word_finished_statusAt_other (now : Int) (s : GameState) (i : Nat)
    (hi1 : i ≠ s.current_word_index) (hi2 : i ≠ s.current_word_index + 1) :
    statusAt (word_finished now s) i = statusAt s i := by
  unfold word_finished
  dsimp only
  split
  · simp only [statusAt_eq, finish, set_status]
    rw [List.getElem?_set_ne (fun hh => hi1 hh.symm)]
  · simp only [statusAt_eq, set_status]
    rw [List.getElem?_set_ne (fun hh => hi2 hh.symm),
      List.getElem?_set_ne (fun hh => hi1 hh.symm)]

theorem statusSpec_word_finished (now : Int) (s : GameState)
    (h : StatusSpec s) (hfin : is_finished s = false) :
    StatusSpec (word_finished now s) := by
  obtain ⟨h1, h2, h3⟩ := h
  have hlt : s.current_word_index < s.words.length := by
    rcases Nat.lt_or_eq_of_le h1 with hc | hc
    · exact hc
    · rw [h2 hc] at hfin
      cases hfin
  obtain ⟨p1, p2, p3, p4, p5, p6, p7⟩ := word_finished_proj now s
  refine ⟨?_, ?_, ?_⟩
  · rw [p1, p7]
    omega
  · intro hh
    rw [p1, p7] at hh
    unfold is_finished
    rw [word_finished_end_time, if_pos hh]
    rfl
  · intro i hi
    rw [p7] at hi
    rw [p1]
    by_cases hi1 : i = s.current_word_index
    · subst hi1
      refine ⟨?_, ?_, ?_⟩
      · intro _
        rw [word_finished_statusAt_cur now s hlt]
        split
        · exact Or.inl rfl
        · exact Or.inr rfl
      · intro hh
        omega
      · intro hh
        omega
    · by_cases hi2 : i = s.current_word_index + 1
      · subst hi2
        refine ⟨?_, ?_, ?_⟩
        · intro hh
          omega
        · intro _
          exact Or.inl (word_finished_statusAt_next now s hi)
        · intro hh
          omega
      · rw [word_finished_statusAt_other now s i hi1 hi2]
        refine ⟨?_, ?_, ?_⟩
        · intro hh
          exact (h3 i hi).1 (by omega)
        · intro hh
          exact absurd hh hi2
        · intro hh
          exact (h3 i hi).2.2 (by omega)

theorem statusSpec_route_key (rig : Bool) (now : Int) (key : PyStr)
    (s : GameState) (h : StatusSpec s) (hfin : is_finished s = false) :
    StatusSpec (route_key rig now key s) := by
  unfold route_key
  split
  · exact statusSpec_finish now s h
  · split
    · exact statusSpec_update_typing _ h
    · split
      · exact statusSpec_update_typing _ h
      · split
        · split
          · exact statusSpec_word_finished now s h hfin
          · exact h
        · split
          · exact statusSpec_update_typing _ h
          · exact h

theorem statusSpec_consume_key (rig : Bool) (now : Int) (key : PyStr)
    (s : GameState) (h : StatusSpec s) (hfin : is_finished s = false) :
    StatusSpec (consume_key rig now key s) := by
  have hs1 := statusSpec_route_key rig now key s h hfin
  unfold consume_key
  dsimp only
  split
  · exact statusSpec_congr (s := route_key rig now key s) rfl rfl rfl hs1
  · exact hs1

theorem statusSpec_step {rig : Bool} {s s' : GameState}
    (hs : Step rig s s') (h : StatusSpec s) : StatusSpec s' := by
  cases hs with
  | consume now key _ hfin _ => exact statusSpec_consume_key rig now key s h hfin
  | tick_step now _ hfin _ => exact statusSpec_tick now s h

theorem initState_words_length (words : List PyStr) (t : Int) :
    (initState words t).words.length = words.length := by
  simp [initState, List.enum_eq_enumFrom]

theorem initState_statusAt (words : List PyStr) (t : Int) (i : Nat)
    (hi : i < words.length) :
    statusAt (initState words t) i =
      if i = 0 then WordStatus.typing_well else WordStatus.untyped := by
  simp only [statusAt_eq, initState, List.enum_eq_enumFrom,
    List.getElem?_map, List.getElem?_enumFrom,
    List.getElem?_eq_getElem hi]
  simp

theorem statusSpec_initState (words : List PyStr) (t : Int)
    (hw : words ≠ []) : StatusSpec (initState words t) := by
  have hlen := initState_words_length words t
  have hpos : 0 < words.length := List.length_pos.2 hw
  have hcwi : (initState words t).current_word_index = 0 := rfl
  refine ⟨?_, ?_, ?_⟩
  · rw [hcwi]
    omega
  · intro hh
    rw [hcwi, hlen] at hh
    exact absurd hh.symm (by omega)
  · intro i hi
    rw [hlen] at hi
    refine ⟨?_, ?_, ?_⟩
    · intro hh
      rw [hcwi] at hh
      exact absurd hh (by omega)
    · intro hh
      rw [hcwi] at hh
      rw [initState_statusAt words t i hi, if_pos hh]
      exact Or.inl rfl
    · intro hh
      rw [hcwi] at hh
      rw [initState_statusAt words t i hi, if_neg (by omega)]

theorem statusSpec_reachable {rig : Bool} {w : List PyStr} {t : Int}
    {s : GameState} (hw : w ≠ []) (hr : Reachable rig w t s) :
    StatusSpec s := by
  induction hr with
  | init => exact statusSpec_initState w t hw
  | step _ hs ih => exact statusSpec_step hs ih

theorem countP_typing_spec :
    ∀ (l : List Word) (k : Nat),
      (∀ i (hi : i < l.length),
        (i < k → is_typing (l[i].status) = false) ∧
        (i = k → is_typing (l[i].status) = true) ∧
        (k < i → is_typing (l[i].status) = false)) →
      l.countP (fun wd => is_typing wd.status)
        = if k < l.length then 1 else 0 := by
  intro l
  induction l with
  | nil =>
    intro k h
    simp
  | cons wd tl ih =>
    intro k h
    match k with
    | 0 =>
      have hw : is_typing wd.status = true := by
        have := (h 0 (by simp)).2.1 rfl
        simpa using this
      rw [List.countP_cons_of_pos _ _ (by simpa using hw)]
      have htl : tl.countP (fun wd => is_typing wd.status) = 0 := by
        rw [List.countP_eq_zero]
        intro a ha
        obtain ⟨i, hi, rfl⟩ := List.mem_iff_getElem.1 ha
        have := (h (i + 1) (by simpa using Nat.succ_lt_succ hi)).2.2
          (Nat.succ_pos i)
        simpa using this
      rw [htl]
      simp
    | j + 1 =>
      have hw : is_typing wd.status = false := by
        have := (h 0 (by simp)).1 (Nat.succ_pos j)
        simpa using this
      rw [List.countP_cons_of_neg _ _ (by simp [hw])]
      rw [ih j ?_]
      · by_cases hj : j < tl.length
        · rw [if_pos hj, if_pos (by simpa using Nat.succ_lt_succ hj)]
        · rw [if_neg hj, if_neg (by simp; omega)]
      · intro i hi
        refine ⟨?_, ?_, ?_⟩
        · intro hlt
          have := (h (i + 1) (by simpa using Nat.succ_lt_succ hi)).1
            (by omega)
          simpa using this
        · intro heq
          have := (h (i + 1) (by simpa using Nat.succ_lt_succ hi)).2.1
            (by omega)
          simpa using this
        · intro hgt
          have := (h (i + 1) (by simpa using Nat.succ_lt_succ hi)).2.2
            (by omega)
          simpa using this

theorem typing_count_of_statusSpec (s : GameState) (h : StatusSpec s) :
    typing_count s =
      if s.current_word_index < s.words.length then 1 else 0 := by
  obtain ⟨h1, h2, h3⟩ := h
  unfold typing_count
  refine countP_typing_spec s.words s.current_word_index ?_
  intro i hi
  have hsa : statusAt s i = s.words[i].status := by
    rw [statusAt_eq, List.getElem?_eq_getElem hi]
  refine ⟨?_, ?_, ?_⟩
  · intro hlt
    rcases (h3 i hi).1 hlt with hc | hc <;>
      rw [← hsa, hc] <;> rfl
  · intro heq
    rcases (h3 i hi).2.1 heq with hc | hc <;>
      rw [← hsa, hc] <;> rfl
  · intro hgt
    rw [← hsa, (h3 i hi).2.2 hgt]
    rfl

/-- C5 counterexample: abort (Ctrl-C) on a fresh game finishes it without
committing the current word, so the finished state still holds exactly one
word in a "typing" status — not zero as the claim requires. -/
theorem c5_counterexample_abort_keeps_typing :
    is_finished (consume_key false 0 ['\x03'] (initState [['c', 'a', 't']] 60))
      = true ∧
    typing_count
        (consume_key false 0 ['\x03'] (initState [['c', 'a', 't']] 60))
      = 1 := by
  constructor
  · rfl
  · rfl

/-- C5 amended: in every reachable state of a game over a non-empty word
list, exactly one word holds a "typing" status while the game is not
finished; once finished with all words committed (index = word count) no
word does; but once finished early (timeout or abort, index < word count)
the in-progress word keeps its "typing" status, so exactly one remains. -/
theorem c5_typing_status_invariant (rig : Bool) (w : List PyStr) (t : Int)
    (s : GameState) (hw : w ≠ []) (hr : Reachable rig w t s) :
    (is_finished s = false → typing_count s = 1) ∧
    (is_finished s = true → s.current_word_index = s.words.length →
      typing_count s = 0) ∧
    (is_finished s = true → s.current_word_index < s.words.length →
      typing_count s = 1) := by
  have hspec := statusSpec_reachable hw hr
  have hcount := typing_count_of_statusSpec s hspec
  obtain ⟨h1, h2, h3⟩ := hspec
  refine ⟨?_, ?_, ?_⟩
  · intro hfin
    have hne : s.current_word_index ≠ s.words.length := by
      intro hc
      rw [h2 hc] at hfin
      cases hfin
    rw [hcount, if_pos (by omega)]
  · intro _ heq
    rw [hcount, if_neg (by omega)]
  · intro _ hlt
    rw [hcount, if_pos hlt]

/-- Witness for C5 at a concrete input: the freshly constructed state over
one word is reachable, unfinished, and has one typing word. -/
theorem c5_typing_status_invariant_witness :
    (is_finished (initState [['a']] 60) = false →
      typing_count (initState [['a']] 60) = 1) ∧
    (is_finished (initState [['a']] 60) = true →
      (initState [['a']] 60).current_word_index
        = (initState [['a']] 60).words.length →
      typing_count (initState [['a']] 60) = 0) ∧
    (is_finished (initState [['a']] 60) = true →
      (initState [['a']] 60).current_word_index
        < (initState [['a']] 60).words.length →
      typing_count (initState [['a']] 60) = 1) :=
  c5_typing_status_invariant false [['a']] 60 (initState [['a']] 60)
    (by decide) Reachable.init

theorem tick_proj (now : Int) (s : GameState) :
    (tick now s).current_word_index = s.current_word_index ∧
    (tick now s).keys_pressed = s.keys_pressed ∧
    (tick now s).time_left = s.time_left - 1 ∧
    (tick now s).words = s.words ∧
    (tick now s).word_input = s.word_input ∧
    (tick now s).current_word_keys_pressed
      = s.current_word_keys_pressed := by
  unfold tick
  dsimp only
  split
  · exact ⟨rfl, rfl, rfl, rfl, rfl, rfl⟩
  · exact ⟨rfl, rfl, rfl, rfl, rfl, rfl⟩

theorem route_key_counters (rig : Bool) (now : Int) (key : PyStr)
    (s : GameState) :
    s.current_word_index ≤ (route_key rig now key s).current_word_index ∧
    s.keys_pressed ≤ (route_key rig now key s).keys_pressed ∧
    (route_key rig now key s).time_left = s.time_left := by
  unfold route_key
  split
  · exact ⟨Nat.le_refl _, Nat.le_refl _, rfl⟩
  · split
    · exact ⟨Nat.le_refl _, Nat.le_refl _, rfl⟩
    · split
      · exact ⟨Nat.le_refl _, Nat.le_refl _, rfl⟩
      · split
        · split
          · obtain ⟨p1, p2, p3, p4, p5, -⟩ := word_finished_proj now s
            exact ⟨by rw [p1]; omega, by rw [p3]; omega, p5⟩
          · exact ⟨Nat.le_refl _, Nat.le_refl _, rfl⟩
        · split
          · exact ⟨Nat.le_refl _, Nat.le_refl _, rfl⟩
          · exact ⟨Nat.le_refl _, Nat.le_refl _, rfl⟩

theorem step_counters {rig : Bool} {s s' : GameState} (hs : Step rig s s') :
    s.current_word_index ≤ s'.current_word_index ∧
    s.keys_pressed ≤ s'.keys_pressed ∧
    s'.time_left ≤ s.time_left := by
  cases hs with
  | consume now key _ hfin hkey =>
    obtain ⟨-, ci, -, ck, -, ct, -⟩ := consume_key_core rig now key s
    obtain ⟨r1, r2, r3⟩ := route_key_counters rig now key s
    rw [ci, ck, ct]
    exact ⟨r1, r2, le_of_eq r3⟩
  | tick_step now _ hfin hstart =>
    obtain ⟨t1, t2, t3, -⟩ := tick_proj now s
    rw [t1, t2, t3]
    exact ⟨Nat.le_refl _, Nat.le_refl _, by omega⟩

theorem reachable_time_inv {rig : Bool} {w : List PyStr} {t : Int}
    {s : GameState} (hr : Reachable rig w t s) (ht : 1 ≤ t) :
    (is_finished s = false → 1 ≤ s.time_left) ∧ 0 ≤ s.time_left := by
  induction hr with
  | init => exact ⟨fun _ => ht, by positivity⟩
  | @step s1 s2 _ hs ih =>
    cases hs with
    | consume now key _ hfin hkey =>
      obtain ⟨-, -, -, -, -, ct, -⟩ := consume_key_core rig now key s1
      obtain ⟨-, -, r3⟩ := route_key_counters rig now key s1
      rw [ct, r3]
      exact ⟨fun _ => ih.1 hfin, ih.2⟩
    | tick_step now _ hfin hstart =>
      have h1 := ih.1 hfin
      obtain ⟨-, -, t3, -⟩ := tick_proj now s1
      constructor
      · intro hf2
        rw [t3]
        unfold tick at hf2
        dsimp only at hf2
        by_cases hz : s1.time_left - 1 = 0
        · rw [if_pos hz] at hf2
          exact absurd hf2 (by unfold is_finished finish; simp)
        · omega
      · rw [t3]
        omega

/-- C6 counterexample: the claim quantifies over every constructed game
state, but a game constructed with `max_time = 0` (the CLI accepts
`--time 0`) goes negative on the first tick: after one key event (which
starts the timer) and one tick, `time_left` is -1. -/
theorem c6_counterexample_negative_time :
    Reachable false [['a', 'b']] 0
      (tick 1 (consume_key false 0 ['a'] (initState [['a', 'b']] 0))) ∧
    (tick 1 (consume_key false 0 ['a'] (initState [['a', 'b']] 0))).time_left
      = -1 := by
  constructor
  · exact Reachable.step
      (Reachable.step Reachable.init
        (Step.consume 0 ['a'] _ (by decide) (by decide)))
      (Step.tick_step 1 _ (by decide) (by decide))
  · rfl

/-- C6 amended: across every controller event the current word index and
the cumulative key counter never decrease and the remaining time never
increases; and provided the game was constructed with `max_time ≥ 1` (as
every real game is), the remaining time also never becomes negative. -/
theorem c6_monotonicity (rig : Bool) (w : List PyStr) (t : Int)
    (s s' : GameState) (hr : Reachable rig w t s) (hs : Step rig s s') :
    (s.current_word_index ≤ s'.current_word_index ∧
     s.keys_pressed ≤ s'.keys_pressed ∧
     s'.time_left ≤ s.time_left) ∧
    (1 ≤ t → 0 ≤ s.time_left ∧ 0 ≤ s'.time_left) := by
  refine ⟨step_counters hs, fun ht => ?_⟩
  exact ⟨(reachable_time_inv hr ht).2,
    (reachable_time_inv (Reachable.step hr hs) ht).2⟩

/-- Witness for C6 at a concrete input: the first key event on a fresh
60-second game over the words `"ab"`. -/
theorem c6_monotonicity_witness :
    ((initState [['a', 'b']] 60).current_word_index
        ≤ (consume_key false 0 ['a'] (initState [['a', 'b']] 60)).current_word_index ∧
     (initState [['a', 'b']] 60).keys_pressed
        ≤ (consume_key false 0 ['a'] (initState [['a', 'b']] 60)).keys_pressed ∧
     (consume_key false 0 ['a'] (initState [['a', 'b']] 60)).time_left
        ≤ (initState [['a', 'b']] 60).time_left) ∧
    (1 ≤ (60 : Int) → 0 ≤ (initState [['a', 'b']] 60).time_left ∧
      0 ≤ (consume_key false 0 ['a'] (initState [['a', 'b']] 60)).time_left) :=
  c6_monotonicity false [['a', 'b']] 60 (initState [['a', 'b']] 60)
    (consume_key false 0 ['a'] (initState [['a', 'b']] 60))
    Reachable.init (Step.consume 0 ['a'] _ (by decide) (by decide))

theorem filter_eraseIdx_of_neg (p : Word → Bool) :
    ∀ (l : List Word) (i : Nat) (hi : i < l.length),
      p (l.get ⟨i, hi⟩) = false →
      (l.eraseIdx i).filter p = l.filter p := by
  intro l
  induction l with
  | nil =>
    intro i hi
    simp at hi
  | cons a tl ih =>
    intro i hi hp
    match i with
    | 0 =>
      rw [List.eraseIdx_cons_zero,
        List.filter_cons_of_neg (by simpa using hp)]
    | j + 1 =>
      rw [List.eraseIdx_cons_succ]
      by_cases ha : p a = true
      · rw [List.filter_cons_of_pos ha, List.filter_cons_of_pos ha,
          ih j (by simpa using hi) (by simpa using hp)]
      · rw [List.filter_cons_of_neg (by simpa using ha),
          List.filter_cons_of_neg (by simpa using ha),
          ih j (by simpa using hi) (by simpa using hp)]

/-- C10: in every reachable finished state whose current word index is
still inside the word list (finish by timeout or abort), the in-progress
word holds a "typing" status, so it belongs to neither the TYPED_WELL nor
the TYPED_WRONG filter that `render_stats` computes its character counts
and accuracy from (erasing it changes neither filter result); and no edit
operation (`key_pressed`, `backspace_pressed`, `word_backspace_pressed`)
nor `finish`/`tick` ever adds to the cumulative `keys_pressed` counter —
only `word_finished` does. -/
theorem c10_uncommitted_word_excluded (rig : Bool) (w : List PyStr)
    (t : Int) (s : GameState) (hw : w ≠ []) (hr : Reachable rig w t s)
    (_hfin : is_finished s = true)
    (hlt : s.current_word_index < s.words.length) :
    (statusAt s s.current_word_index = WordStatus.typing_well ∨
     statusAt s s.current_word_index = WordStatus.typing_wrong) ∧
    ((s.words.eraseIdx s.current_word_index).filter
        (fun wd => wd.status == WordStatus.typed_well))
      = s.words.filter (fun wd => wd.status == WordStatus.typed_well) ∧
    ((s.words.eraseIdx s.current_word_index).filter
        (fun wd => wd.status == WordStatus.typed_wrong))
      = s.words.filter (fun wd => wd.status == WordStatus.typed_wrong) ∧
    (∀ (k : PyStr) (s0 : GameState),
      (key_pressed k s0).keys_pressed = s0.keys_pressed) ∧
    (∀ s0 : GameState,
      (backspace_pressed s0).keys_pressed = s0.keys_pressed) ∧
    (∀ s0 : GameState,
      (word_backspace_pressed s0).keys_pressed = s0.keys_pressed) ∧
    (∀ (now : Int) (s0 : GameState),
      (finish now s0).keys_pressed = s0.keys_pressed) ∧
    (∀ (now : Int) (s0 : GameState),
      (tick now s0).keys_pressed = s0.keys_pressed) := by
  have hspec := statusSpec_reachable hw hr
  have htyp := (hspec.2.2 s.current_word_index hlt).2.1 rfl
  have hsa : statusAt s s.current_word_index
      = (s.words.get ⟨s.current_word_index, hlt⟩).status := by
    rw [statusAt_eq, List.getElem?_eq_getElem hlt]
    rfl
  refine ⟨htyp, ?_, ?_, fun k s0 => rfl, fun s0 => rfl, fun s0 => rfl,
    fun now s0 => rfl, fun now s0 => (tick_proj now s0).2.1⟩
  · refine filter_eraseIdx_of_neg _ s.words s.current_word_index hlt ?_
    rw [← hsa]
    rcases htyp with hc | hc <;> rw [hc] <;> rfl
  · refine filter_eraseIdx_of_neg _ s.words s.current_word_index hlt ?_
    rw [← hsa]
    rcases htyp with hc | hc <;> rw [hc] <;> rfl

/-- Witness for C10 at a concrete input: abort with Ctrl-C on a fresh game
over the words `"ab"`, `"cd"`; the state is finished with index 0 < 2. -/
theorem c10_uncommitted_word_excluded_witness :
    (statusAt (consume_key false 0 ['\x03'] (initState [['a', 'b'], ['c', 'd']] 60))
        (consume_key false 0 ['\x03']
          (initState [['a', 'b'], ['c', 'd']] 60)).current_word_index
      = WordStatus.typing_well ∨
     statusAt (consume_key false 0 ['\x03'] (initState [['a', 'b'], ['c', 'd']] 60))
        (consume_key false 0 ['\x03']
          (initState [['a', 'b'], ['c', 'd']] 60)).current_word_index
      = WordStatus.typing_wrong) ∧
    (((consume_key false 0 ['\x03']
          (initState [['a', 'b'], ['c', 'd']] 60)).words.eraseIdx
        (consume_key false 0 ['\x03']
          (initState [['a', 'b'], ['c', 'd']] 60)).current_word_index).filter
        (fun wd => wd.status == WordStatus.typed_well))
      = (consume_key false 0 ['\x03']
          (initState [['a', 'b'], ['c', 'd']] 60)).words.filter
          (fun wd => wd.status == WordStatus.typed_well) ∧
    (((consume_key false 0 ['\x03']
          (initState [['a', 'b'], ['c', 'd']] 60)).words.eraseIdx
        (consume_key false 0 ['\x03']
          (initState [['a', 'b'], ['c', 'd']] 60)).current_word_index).filter
        (fun wd => wd.status == WordStatus.typed_wrong))
      = (consume_key false 0 ['\x03']
          (initState [['a', 'b'], ['c', 'd']] 60)).words.filter
          (fun wd => wd.status == WordStatus.typed_wrong) ∧
    (∀ (k : PyStr) (s0 : GameState),
      (key_pressed k s0).keys_pressed = s0.keys_pressed) ∧
    (∀ s0 : GameState,
      (backspace_pressed s0).keys_pressed = s0.keys_pressed) ∧
    (∀ s0 : GameState,
      (word_backspace_pressed s0).keys_pressed = s0.keys_pressed) ∧
    (∀ (now : Int) (s0 : GameState),
      (finish now s0).keys_pressed = s0.keys_pressed) ∧
    (∀ (now : Int) (s0 : GameState),
      (tick now s0).keys_pressed = s0.keys_pressed) :=
  c10_uncommitted_word_excluded false [['a', 'b'], ['c', 'd']] 60
    (consume_key false 0 ['\x03'] (initState [['a', 'b'], ['c', 'd']] 60))
    (by decide)
    (Reachable.step Reachable.init
      (Step.consume 0 ['\x03'] _ (by decide) (by decide)))
    (by decide) (by decide)

/-! Lemmas about whitespace-free words and `pyStrip` / `pyJoinSpace`,
leading up to the C2 partition theorem for `divide_lines`. -/

theorem wsFree_mem {l : PyStr} (h : wsFree l = true) {c : Char}
    (hc : c ∈ l) : isPySpace c = false := by
  have := List.all_eq_true.1 h c hc
  simpa using this

theorem dropWhile_eq_self_of_wsFree {l : PyStr} (h : wsFree l = true) :
    l.dropWhile isPySpace = l := by
  cases l with
  | nil => rfl
  | cons c cs =>
    rw [List.dropWhile_cons,
      if_neg (by simp [wsFree_mem h (List.mem_cons_self c cs)])]

theorem wsFree_reverse {l : PyStr} (h : wsFree l = true) :
    wsFree l.reverse = true := by
  refine List.all_eq_true.2 ?_
  intro c hc
  have := wsFree_mem h (List.mem_reverse.1 hc)
  simp [this]

theorem pyStrip_wsFree {l : PyStr} (h : wsFree l = true) :
    pyStrip l = l := by
  unfold pyStrip
  rw [dropWhile_eq_self_of_wsFree h,
    dropWhile_eq_self_of_wsFree (wsFree_reverse h), List.reverse_reverse]

theorem joinWord_nil_left {w : PyStr} (_hw : w ≠ [])
    (hfree : wsFree w = true) : joinWord [] w = w := by
  unfold joinWord
  show pyStrip (' ' :: w) = w
  unfold pyStrip
  rw [List.dropWhile_cons, if_pos (by decide),
    dropWhile_eq_self_of_wsFree hfree,
    dropWhile_eq_self_of_wsFree (wsFree_reverse hfree),
    List.reverse_reverse]

theorem pyStrip_sandwich (a : Char) (mid : PyStr) (b : Char)
    (ha : isPySpace a = false) (hb : isPySpace b = false) :
    pyStrip (a :: (mid ++ [b])) = a :: (mid ++ [b]) := by
  unfold pyStrip
  rw [List.dropWhile_cons, if_neg (by simp [ha])]
  have hrev : (a :: (mid ++ [b])).reverse = b :: (mid.reverse ++ [a]) := by
    simp
  rw [hrev, List.dropWhile_cons, if_neg (by simp [hb]), ← hrev,
    List.reverse_reverse]

theorem pyJoinSpace_cons_shape (c : Char) (cs : PyStr) (v : List PyStr) :
    ∃ t, pyJoinSpace ((c :: cs) :: v) = c :: t := by
  cases v with
  | nil => exact ⟨cs, rfl⟩
  | cons v1 rest => exact ⟨cs ++ ' ' :: pyJoinSpace (v1 :: rest), rfl⟩

theorem pyJoinSpace_append_single :
    ∀ (v : List PyStr) (w : PyStr), v ≠ [] →
      pyJoinSpace (v ++ [w]) = pyJoinSpace v ++ ' ' :: w := by
  intro v
  induction v with
  | nil =>
    intro w h
    exact absurd rfl h
  | cons v0 vt ih =>
    intro w h
    cases vt with
    | nil => rfl
    | cons v1 vtt =>
      show v0 ++ ' ' :: pyJoinSpace ((v1 :: vtt) ++ [w])
        = (v0 ++ ' ' :: pyJoinSpace (v1 :: vtt)) ++ ' ' :: w
      rw [ih w (by simp)]
      simp

theorem joinWord_pyJoin (vh : PyStr) (v : List PyStr) (w : PyStr)
    (hvh : vh ≠ []) (hvhf : wsFree vh = true)
    (hw : w ≠ []) (hwf : wsFree w = true) :
    joinWord (pyJoinSpace (vh :: v)) w = pyJoinSpace ((vh :: v) ++ [w]) := by
  obtain ⟨c, cs, rfl⟩ := List.exists_cons_of_ne_nil hvh
  obtain ⟨t, ht⟩ := pyJoinSpace_cons_shape c cs v
  have hc : isPySpace c = false :=
    wsFree_mem hvhf (List.mem_cons_self c cs)
  have hlast : isPySpace (w.getLast hw) = false :=
    wsFree_mem hwf (List.getLast_mem hw)
  unfold joinWord
  rw [ht]
  have hW : w = w.dropLast ++ [w.getLast hw] :=
    (List.dropLast_append_getLast hw).symm
  have hshape : (c :: t) ++ ' ' :: w
      = c :: ((t ++ ' ' :: w.dropLast) ++ [w.getLast hw]) := by
    conv_lhs => rw [hW]
    simp
  rw [hshape, pyStrip_sandwich c _ _ hc hlast, ← hshape, ← ht]
  exact (pyJoinSpace_append_single ((c :: cs) :: v) w
    (List.cons_ne_nil _ _)).symm

theorem foldl_joinWord_pyJoin :
    ∀ (ws : List PyStr) (vh : PyStr) (v : List PyStr),
      vh ≠ [] → wsFree vh = true →
      (∀ u ∈ ws, u ≠ [] ∧ wsFree u = true) →
      ws.foldl joinWord (pyJoinSpace (vh :: v))
        = pyJoinSpace ((vh :: v) ++ ws) := by
  intro ws
  induction ws with
  | nil =>
    intro vh v h1 h2 h3
    simp
  | cons w wt ih =>
    intro vh v h1 h2 h3
    rw [List.foldl_cons,
      joinWord_pyJoin vh v w h1 h2
        (h3 w (List.mem_cons_self w wt)).1
        (h3 w (List.mem_cons_self w wt)).2]
    have hstep : (vh :: v) ++ [w] = vh :: (v ++ [w]) := by simp
    rw [hstep, ih vh (v ++ [w]) h1 h2
      (fun u hu => h3 u (List.mem_cons_of_mem w hu))]
    congr 1
    simp

theorem foldl_joinWord_nil (u : PyStr) (rest : List PyStr)
    (hok : ∀ x ∈ u :: rest, x ≠ [] ∧ wsFree x = true) :
    (u :: rest).foldl joinWord [] = pyJoinSpace (u :: rest) := by
  rw [List.foldl_cons,
    joinWord_nil_left (hok u (List.mem_cons_self u rest)).1
      (hok u (List.mem_cons_self u rest)).2]
  have := foldl_joinWord_pyJoin rest u []
    (hok u (List.mem_cons_self u rest)).1
    (hok u (List.mem_cons_self u rest)).2
    (fun x hx => hok x (List.mem_cons_of_mem u hx))
  simpa [pyJoinSpace] using this

theorem lineInner_master (maxCols : Nat) :
    ∀ (wl : List PyStr) (cur : PyStr),
      ∃ k, k ≤ wl.length ∧
        (lineInner maxCols cur wl).2 = wl.drop k ∧
        (lineInner maxCols cur wl).1 = (wl.take k).foldl joinWord cur ∧
        (1 ≤ k → (lineInner maxCols cur wl).1.length < maxCols) := by
  intro wl
  induction wl with
  | nil =>
    intro cur
    refine ⟨0, Nat.le_refl 0, rfl, rfl, ?_⟩
    intro h
    omega
  | cons w ws ih =>
    intro cur
    have heq : lineInner maxCols cur (w :: ws)
        = if maxCols ≤ (joinWord cur w).length then (cur, w :: ws)
          else lineInner maxCols (joinWord cur w) ws := rfl
    by_cases hc : maxCols ≤ (joinWord cur w).length
    · refine ⟨0, by omega, ?_, ?_, ?_⟩
      · rw [heq, if_pos hc]
        rfl
      · rw [heq, if_pos hc]
        rfl
      · intro h
        omega
    · obtain ⟨k, hk, h2, h3, h4⟩ := ih (joinWord cur w)
      refine ⟨k + 1, by simp; omega, ?_, ?_, ?_⟩
      · rw [heq, if_neg hc, h2, List.drop_succ_cons]
      · rw [heq, if_neg hc, h3, List.take_succ_cons, List.foldl_cons]
      · intro _
        rw [heq, if_neg hc]
        match k, h3, h4 with
        | 0, h3, _ =>
          rw [h3]
          simpa using Nat.lt_of_not_le hc
        | k + 1, _, h4 => exact h4 (by omega)

theorem divide_lines_aux_ok (words : List PyStr) (maxCols : Nat)
    (hwords : ∀ u ∈ words, u ≠ [] ∧ wsFree u = true) :
    ∀ (fuel : Nat) (wl : List PyStr) (acc ranges : List (Nat × Nat)),
      wl = words.drop (words.length - wl.length) →
      wl.length ≤ words.length →
      divide_lines_aux words.length maxCols fuel wl acc = some ranges →
      ∃ tail, ranges = acc.reverse ++ tail ∧
        RangesOK words maxCols (words.length - wl.length) tail := by
  intro fuel
  induction fuel with
  | zero =>
    intro wl acc ranges hdrop hlen haux
    cases wl with
    | nil =>
      refine ⟨[], ?_, ?_⟩
      · have : ranges = acc.reverse := (Option.some.inj haux).symm
        rw [this, List.append_nil]
      · show words.length - ([] : List PyStr).length = words.length
        simp
    | cons w ws => exact Option.noConfusion haux
  | succ fuel ih =>
    intro wl acc ranges hdrop hlen haux
    cases wl with
    | nil =>
      refine ⟨[], ?_, ?_⟩
      · have : ranges = acc.reverse := (Option.some.inj haux).symm
        rw [this, List.append_nil]
      · show words.length - ([] : List PyStr).length = words.length
        simp
    | cons w ws =>
      have hstep : divide_lines_aux words.length maxCols (fuel + 1)
            (w :: ws) acc
          = divide_lines_aux words.length maxCols fuel
              (lineInner maxCols [] (w :: ws)).2
              ((words.length - (w :: ws).length,
                words.length - (lineInner maxCols [] (w :: ws)).2.length)
                :: acc) := rfl
      rw [hstep] at haux
      obtain ⟨k, hk, h2, h3, h4⟩ := lineInner_master maxCols (w :: ws) []
      by_cases hprog : (lineInner maxCols [] (w :: ws)).2 = w :: ws
      · rw [hprog,
          divide_lines_aux_stuck words.length maxCols (w :: ws)
            (List.cons_ne_nil w ws) hprog fuel _] at haux
        exact Option.noConfusion haux
      · have hk1 : 1 ≤ k := by
          rcases Nat.eq_zero_or_pos k with hz | hp
          · exfalso
            apply hprog
            rw [h2, hz, List.drop_zero]
          · exact hp
        have hlen2 : (lineInner maxCols [] (w :: ws)).2.length
            = (w :: ws).length - k := by
          rw [h2, List.length_drop]
        have hdrop2 : (lineInner maxCols [] (w :: ws)).2
            = words.drop (words.length
                - (lineInner maxCols [] (w :: ws)).2.length) := by
          rw [h2, List.length_drop]
          conv_lhs => rw [hdrop]
          rw [List.drop_drop]
          congr 1
          omega
        obtain ⟨tail, htail, hok⟩ := ih
          (lineInner maxCols [] (w :: ws)).2
          ((words.length - (w :: ws).length,
            words.length - (lineInner maxCols [] (w :: ws)).2.length) :: acc)
          ranges hdrop2 (by rw [hlen2]; omega) haux
        refine ⟨(words.length - (w :: ws).length,
          words.length - (lineInner maxCols [] (w :: ws)).2.length) :: tail,
          ?_, ?_⟩
        · rw [htail]
          simp
        · refine ⟨rfl, ?_, ?_, ?_, ?_⟩
          · rw [hlen2]
            have hwlen : 0 < (w :: ws).length := by simp
            omega
          · rw [hlen2]
            omega
          · have htake : ((words.drop (words.length - (w :: ws).length)).take
                ((words.length
                  - (lineInner maxCols [] (w :: ws)).2.length)
                  - (words.length - (w :: ws).length)))
                = (w :: ws).take k := by
              rw [← hdrop, hlen2]
              congr 1
              omega
            rw [htake]
            have hcons : (w :: ws).take k = w :: ws.take (k - 1) := by
              match k, hk1 with
              | k + 1, _ => simp
            rw [hcons]
            rw [← foldl_joinWord_nil w (ws.take (k - 1)) ?_]
            · rw [← hcons, ← h3]
              exact h4 hk1
            · intro x hx
              refine hwords x ?_
              have hx2 : x ∈ (w :: ws).take k := by
                rw [hcons]
                exact hx
              have hx3 : x ∈ List.drop (words.length - (w :: ws).length)
                  words := by
                rw [← hdrop]
                exact List.mem_of_mem_take hx2
              exact List.mem_of_mem_drop hx3
          · exact hok

theorem rangesOK_nil (words : List PyStr) (mc k : Nat) :
    RangesOK words mc k [] = (k = words.length) := rfl

theorem rangesOK_cons (words : List PyStr) (mc k : Nat) (r : Nat × Nat)
    (rest : List (Nat × Nat)) :
    RangesOK words mc k (r :: rest) =
      (r.1 = k ∧ k < r.2 ∧ r.2 ≤ words.length ∧
       (pyJoinSpace ((words.drop r.1).take (r.2 - r.1))).length < mc ∧
       RangesOK words mc r.2 rest) := rfl

theorem rangesOK_mem (words : List PyStr) (mc : Nat) :
    ∀ (rs : List (Nat × Nat)) (k : Nat), RangesOK words mc k rs →
      ∀ r ∈ rs, r.1 < r.2 ∧
        (pyJoinSpace ((words.drop r.1).take (r.2 - r.1))).length < mc := by
  intro rs
  induction rs with
  | nil =>
    intro k h r hr
    cases hr
  | cons a rest ih =>
    intro k h r hr
    rw [rangesOK_cons] at h
    rcases List.mem_cons.1 hr with rfl | hr2
    · exact ⟨by omega, h.2.2.2.1⟩
    · exact ih a.2 h.2.2.2.2 r hr2

theorem rangesOK_chain (words : List PyStr) (mc : Nat) :
    ∀ (rs : List (Nat × Nat)) (k : Nat), RangesOK words mc k rs →
      ∀ i (h1 : i < rs.length) (h2 : i + 1 < rs.length),
        (rs.get ⟨i, h1⟩).2 = (rs.get ⟨i + 1, h2⟩).1 := by
  intro rs
  induction rs with
  | nil =>
    intro k h i h1 h2
    simp at h1
  | cons a rest ih =>
    intro k h i h1 h2
    rw [rangesOK_cons] at h
    match i with
    | 0 =>
      cases rest with
      | nil => simp at h2
      | cons b rest2 =>
        have hb := h.2.2.2.2
        rw [rangesOK_cons] at hb
        exact hb.1.symm
    | j + 1 =>
      exact ih a.2 h.2.2.2.2 j (by simpa using h1) (by simpa using h2)

theorem rangesOK_last (words : List PyStr) (mc : Nat) :
    ∀ (rs : List (Nat × Nat)) (k : Nat), RangesOK words mc k rs →
      ∀ hne : rs ≠ [], (rs.getLast hne).2 = words.length := by
  intro rs
  induction rs with
  | nil =>
    intro k h hne
    exact absurd rfl hne
  | cons a rest ih =>
    intro k h hne
    rw [rangesOK_cons] at h
    cases rest with
    | nil =>
      have hend := h.2.2.2.2
      rw [rangesOK_nil] at hend
      simpa using hend
    | cons b rest2 =>
      have := ih a.2 h.2.2.2.2 (List.cons_ne_nil _ _)
      rw [List.getLast_cons (List.cons_ne_nil _ _)]
      exact this

/-- C2: whenever `divide_lines` returns (the Python loop terminates — see
C3 for the inputs on which it does not), and the words are the non-empty
whitespace-free tokens `parse_corpus` produces, the returned ranges
partition `[0, len(words))` contiguously in ascending order with no gaps
or overlaps (first low 0, each high equals the next low, last high equals
the word count, every range non-empty), each line's space-joined text is
strictly shorter than `max_columns`, and empty input yields an empty
range list. -/
theorem c2_divide_lines_partition (words : List PyStr)
    (max_columns fuel : Nat) (ranges : List (Nat × Nat))
    (_hmc : 1 ≤ max_columns)
    (hwords : ∀ u ∈ words, u ≠ [] ∧ wsFree u = true)
    (hsome : divide_lines words max_columns fuel = some ranges) :
    (words = [] → ranges = []) ∧
    (words ≠ [] → ranges ≠ []) ∧
    (∀ hne : ranges ≠ [], (ranges.head hne).1 = 0) ∧
    (∀ hne : ranges ≠ [], (ranges.getLast hne).2 = words.length) ∧
    (∀ i (h1 : i < ranges.length) (h2 : i + 1 < ranges.length),
      (ranges.get ⟨i, h1⟩).2 = (ranges.get ⟨i + 1, h2⟩).1) ∧
    (∀ r ∈ ranges, r.1 < r.2) ∧
    (∀ r ∈ ranges,
      (pyJoinSpace ((words.drop r.1).take (r.2 - r.1))).length
        < max_columns) := by
  unfold divide_lines at hsome
  obtain ⟨tail, htail, hok⟩ := divide_lines_aux_ok words max_columns hwords
    fuel words [] ranges (by simp) (Nat.le_refl _) hsome
  rw [Nat.sub_self] at hok
  have hrt : ranges = tail := by simpa using htail
  rw [← hrt] at hok
  refine ⟨?_, ?_, ?_,
    fun hne => rangesOK_last words max_columns ranges 0 hok hne,
    rangesOK_chain words max_columns ranges 0 hok,
    fun r hr => (rangesOK_mem words max_columns ranges 0 hok r hr).1,
    fun r hr => (rangesOK_mem words max_columns ranges 0 hok r hr).2⟩
  · intro hwn
    cases hranges : ranges with
    | nil => rfl
    | cons a rest =>
      rw [hranges, rangesOK_cons] at hok
      subst hwn
      have h1 := hok.2.1
      have h2 := hok.2.2.1
      simp at h2
      omega
  · intro hwn hcontra
    rw [hcontra, rangesOK_nil] at hok
    exact hwn (List.length_eq_zero.1 hok.symm)
  · intro hne
    obtain ⟨a, rest, rfl⟩ := List.exists_cons_of_ne_nil hne
    rw [rangesOK_cons] at hok
    simpa using hok.1

/-- Witness for C2 at a concrete input: `divide_lines(["ab", "cd"], 80)`
terminates with one fuel step and returns the single range `(0, 2)`. -/
theorem c2_divide_lines_partition_witness :
    (([['a', 'b'], ['c', 'd']] : List PyStr) = [] →
      ([(0, 2)] : List (Nat × Nat)) = []) ∧
    (([['a', 'b'], ['c', 'd']] : List PyStr) ≠ [] →
      ([(0, 2)] : List (Nat × Nat)) ≠ []) ∧
    (∀ hne : ([(0, 2)] : List (Nat × Nat)) ≠ [],
      (([(0, 2)] : List (Nat × Nat)).head hne).1 = 0) ∧
    (∀ hne : ([(0, 2)] : List (Nat × Nat)) ≠ [],
      (([(0, 2)] : List (Nat × Nat)).getLast hne).2
        = ([['a', 'b'], ['c', 'd']] : List PyStr).length) ∧
    (∀ i (h1 : i < ([(0, 2)] : List (Nat × Nat)).length)
        (h2 : i + 1 < ([(0, 2)] : List (Nat × Nat)).length),
      (([(0, 2)] : List (Nat × Nat)).get ⟨i, h1⟩).2
        = (([(0, 2)] : List (Nat × Nat)).get ⟨i + 1, h2⟩).1) ∧
    (∀ r ∈ ([(0, 2)] : List (Nat × Nat)), r.1 < r.2) ∧
    (∀ r ∈ ([(0, 2)] : List (Nat × Nat)),
      (pyJoinSpace ((([['a', 'b'], ['c', 'd']] : List PyStr).drop r.1).take
        (r.2 - r.1))).length < 80) :=
  c2_divide_lines_partition [['a', 'b'], ['c', 'd']] 80 1 [(0, 2)]
    (by decide) (by decide) (by decide)

end TenFF
